import Mathlib

/-!
Verification of the chunked upload-session subsystem of RecipeFlow.

This file shallowly embeds the upload session service
(packages/api/src/services/uploadSession.ts), the SHA-256 hash utilities
(packages/api/src/utils/hash.ts) and the pieces of the chunked upload
route layer that the claims reference, and proves or refutes the frozen
claims about them.

Modelling conventions:
- byte buffers (Node Buffers) are lists of byte values, JS strings
  (hash digests) are lists of UTF-16 char codes;
- the SHA-256 function itself is an abstract parameter
  `hash : Bytes -> HashStr`, exactly as the service treats `hashBuffer`
  as a black box;
- the database record and the on-disk chunk files of one upload session
  are an explicit `SessionState` record threaded through the service
  functions; each service function returns the post state together with
  an `Except` value mirroring the thrown error classes;
- timestamps are natural numbers (milliseconds), `now` is passed
  explicitly where the source calls `new Date()` / `Date.now()`.
-/

/-- A Node `Buffer`: a list of byte values. -/
abbrev Bytes := List Nat

/-- A JS string holding a hash digest, as its list of UTF-16 char codes. -/
abbrev HashStr := List Nat

-- ==================== utils/hash.ts ====================

/-- utils/hash.ts `hashesMatch`: constant-time comparison; `false` on
length mismatch, otherwise the bitwise-or accumulation of per-index
char-code xors must come out zero. -/
def hashesMatch (a b : HashStr) : Bool :=
  if a.length != b.length then false
  else ((a.zip b).foldl (fun r p => r ||| (p.1 ^^^ p.2)) 0) == 0

/-- One char code of the class `[a-f0-9]` (lowercase hex). -/
def isLowerHexDigit (c : Nat) : Bool :=
  (97 ≤ c && c ≤ 102) || (48 ≤ c && c ≤ 57)

/-- The char codes of the string literal `sha256:`. -/
def sha256Tag : HashStr := [115, 104, 97, 50, 53, 54, 58]

/-- utils/hash.ts `isValidHash`: the regex test `^sha256:[a-f0-9]{64}$`
(7 tag chars plus exactly 64 lowercase hex digits). -/
def isValidHash (h : HashStr) : Bool :=
  h.length == 71 && (h.take 7 == sha256Tag) && (h.drop 7).all isLowerHexDigit

/-- shared upload type: `"icons" | "items"`. -/
inductive UploadType
  | icons
  | items
deriving DecidableEq

/-- The Prisma `upload_sessions` row (migration `CREATE TABLE
"upload_sessions"`): declared totals, the caller-declared final hash,
the received-chunk index array, expiry and completion timestamps. -/
structure UploadSession where
  id : Nat
  modpackVersionId : Nat
  userId : Nat
  type : UploadType
  totalSize : Int
  totalChunks : Int
  chunkSize : Int
  finalHash : HashStr
  chunksReceived : List Int
  expiresAt : Nat
  completedAt : Option Nat
  createdAt : Nat
deriving DecidableEq

/-- The mutable state belonging to one upload session: the database row
(`none` = no such row), the chunk files written under the session
directory keyed by chunk index (later writes are consed in front and
shadow earlier ones, like `writeFile` overwriting), and the reassembled
`complete` file. -/
structure SessionState where
  session : Option UploadSession
  chunkFiles : List (Int × Bytes)
  completeFile : Option Bytes
deriving DecidableEq

/-- `CreateSessionParams` of uploadSession.ts. -/
structure CreateSessionParams where
  modpackVersionId : Nat
  userId : Nat
  type : UploadType
  totalSize : Int
  totalChunks : Int
  chunkSize : Int
  finalHash : HashStr
deriving DecidableEq

/-- The one error `createUploadSession` itself throws
(`Invalid hash format`). -/
inductive CreateSessionError
  | invalidHashFormat
deriving DecidableEq

/-- Errors thrown by `storeChunk`: `SessionNotFoundError`,
`SessionExpiredError`, the generic invalid-chunk-index `Error`, and
`ChunkHashMismatchError` with its `expected`/`received` payload. -/
inductive StoreChunkError
  | sessionNotFound
  | sessionExpired
  | invalidChunkIndex
  | chunkHashMismatch (expected received : HashStr)
deriving DecidableEq

/-- `StoreChunkResult` of uploadSession.ts. -/
structure StoreChunkResult where
  verified : Bool
  session : UploadSession
  chunksReceived : Nat
  chunksRemaining : Int
deriving DecidableEq

/-- Errors thrown by `reassembleAndVerify`: `SessionNotFoundError`,
`ChunksMissingError` with the missing index list,
`FinalHashMismatchError` with its `expected`/`received` payload, and the
filesystem error surfaced when a recorded chunk file is absent on disk
(`readFile` rejecting). -/
inductive ReassembleError
  | sessionNotFound
  | chunksMissing (missing : List Int)
  | finalHashMismatch (expected received : HashStr)
  | chunkFileMissing (index : Int)
deriving DecidableEq

/-- `ReassembleResult` of uploadSession.ts; the `filePath` handle is
modelled by the `completeFile` slot of the session state. -/
structure ReassembleResult where
  verified : Bool
  hash : HashStr
deriving DecidableEq

deriving instance DecidableEq for Except

-- ==================== small helpers over the state ====================

/-- Read the chunk file for one index (first = newest write wins). -/
def lookupChunk (files : List (Int × Bytes)) (i : Int) : Option Bytes :=
  match files with
  | [] => none
  | (j, d) :: rest => if j = i then some d else lookupChunk rest i

/-- The net effect of lines 438-440 of the service: insert the index into
`chunksReceived` as a set (`new Set(...).add(...)`) and render it back as
a numerically sorted array (`Array.from(...).sort((a, b) => a - b)`):
the ascending list of the distinct members of `l ++ [x]`. -/
def insertAsc (x : Int) : List Int → List Int
  | [] => [x]
  | y :: ys => if x ≤ y then x :: y :: ys else y :: insertAsc x ys

def sortAsc (l : List Int) : List Int := l.foldr insertAsc []

def setAdd (l : List Int) (x : Int) : List Int :=
  sortAsc ((l ++ [x]).dedup)

def exceptOk {ε α : Type} : Except ε α → Bool
  | .ok _ => true
  | .error _ => false

-- ==================== service functions ====================

def SESSION_EXPIRY_HOURS : Nat := 1

/-- uploadSession.ts `createUploadSession`: computes
`expiresAt = now + 1h`, rejects a malformed final hash, otherwise
persists a fresh pending row with `chunksReceived: []` (and
`completed_at` NULL, `created_at` defaulted by the schema).  The fresh
Prisma id is passed in as `newId`. -/
def createUploadSession (now : Nat) (newId : Nat) (params : CreateSessionParams) :
    Except CreateSessionError UploadSession :=
  let expiresAt := now + SESSION_EXPIRY_HOURS * 60 * 60 * 1000
  if !isValidHash params.finalHash then
    .error .invalidHashFormat
  else
    .ok { id := newId
          modpackVersionId := params.modpackVersionId
          userId := params.userId
          type := params.type
          totalSize := params.totalSize
          totalChunks := params.totalChunks
          chunkSize := params.chunkSize
          finalHash := params.finalHash
          chunksReceived := []
          expiresAt := expiresAt
          completedAt := none
          createdAt := now }

/-- uploadSession.ts `storeChunk`: look the session up, reject when
absent, when `expiresAt < now`, or when the index is out of
`[0, totalChunks)`; hash the body and reject a mismatch against the
claimed hash without persisting anything; otherwise write the chunk file
and re-write the session row's `chunksReceived` with the sorted
set-insertion computed from the row read at the top of the call. -/
def storeChunk (hash : Bytes → HashStr) (now : Nat) (st : SessionState)
    (chunkIndex : Int) (data : Bytes) (expectedHash : HashStr) :
    SessionState × Except StoreChunkError StoreChunkResult :=
  match st.session with
  | none => (st, .error .sessionNotFound)
  | some session =>
    if session.expiresAt < now then
      (st, .error .sessionExpired)
    else if chunkIndex < 0 ∨ session.totalChunks ≤ chunkIndex then
      (st, .error .invalidChunkIndex)
    else
      let actualHash := hash data
      if !hashesMatch actualHash expectedHash then
        (st, .error (.chunkHashMismatch expectedHash actualHash))
      else
        let updatedChunks := setAdd session.chunksReceived chunkIndex
        let updatedSession := { session with chunksReceived := updatedChunks }
        ({ st with
            chunkFiles := (chunkIndex, data) :: st.chunkFiles
            session := some updatedSession },
         .ok { verified := true
               session := updatedSession
               chunksReceived := updatedChunks.length
               chunksRemaining := session.totalChunks - updatedChunks.length })

/-- uploadSession.ts `getMissingChunks`: every `i` in
`[0, totalChunks)` (in loop order, hence ascending) that the received
set does not contain. -/
def getMissingChunks (session : UploadSession) : List Int :=
  ((List.range session.totalChunks.toNat).map (fun (i : Nat) => (i : Int))).filter
    (fun i => !session.chunksReceived.contains i)

/-- The chunk-reading loop of `reassembleAndVerify` (lines 507-512):
read `count` chunk files starting at index `start` in ascending index
order; fail with the first index whose file is absent. -/
def readChunksFrom (files : List (Int × Bytes)) : Nat → Nat → Except Int (List Bytes)
  | _, 0 => .ok []
  | start, Nat.succ k =>
    match lookupChunk files (start : Int) with
    | none => .error (start : Int)
    | some d =>
      match readChunksFrom files (start + 1) k with
      | .error e => .error e
      | .ok rest => .ok (d :: rest)

def readChunks (files : List (Int × Bytes)) (n : Nat) : Except Int (List Bytes) :=
  readChunksFrom files 0 n

/-- uploadSession.ts `reassembleAndVerify`: look the session up; fail
with the missing list when any chunk is missing (no state change); read
all chunks in ascending index order, concatenate, and write the result
to the `complete` path BEFORE verifying; recompute the hash and compare
with the row's `finalHash`; on mismatch throw with the complete file
already written; on match set `completedAt` to the current time and
return the verified result.  Note there is no expiry check and no
already-completed check anywhere in this function. -/
def reassembleAndVerify (hash : Bytes → HashStr) (now : Nat) (st : SessionState) :
    SessionState × Except ReassembleError ReassembleResult :=
  match st.session with
  | none => (st, .error .sessionNotFound)
  | some session =>
    let missing := getMissingChunks session
    if 0 < missing.length then
      (st, .error (.chunksMissing missing))
    else
      match readChunks st.chunkFiles session.totalChunks.toNat with
      | .error i => (st, .error (.chunkFileMissing i))
      | .ok chunks =>
        let completeData := chunks.flatten
        let st' := { st with completeFile := some completeData }
        let actualHash := hash completeData
        let verified := hashesMatch actualHash session.finalHash
        if !verified then
          (st', .error (.finalHashMismatch session.finalHash actualHash))
        else
          ({ st' with session := some { session with completedAt := some now } },
           .ok { verified := true, hash := actualHash })

/-- uploadSession.ts `cleanupExpiredSessions`, restricted to the
one-session view: a pending (`completedAt` null) session whose
`expiresAt` lies strictly before `now` has its files and its row
deleted; anything else is untouched.  Returns the deletion count. -/
def cleanupExpiredSessions (now : Nat) (st : SessionState) : SessionState × Nat :=
  match st.session with
  | none => (st, 0)
  | some s =>
    if s.expiresAt < now ∧ s.completedAt = none then
      ({ session := none, chunkFiles := [], completeFile := none }, 1)
    else
      (st, 0)

-- ==================== route layer (part of the upload routes) ====================

/-- The `UploadStatusResponse` assembled by the status route: the route
returns the row's `chunksReceived` verbatim and derives `chunksMissing`
via `getMissingChunks`. -/
structure UploadStatusResponse where
  sessionId : Nat
  type : UploadType
  chunksReceived : List Int
  chunksMissing : List Int
  totalChunks : Int
deriving DecidableEq

def buildStatusResponse (s : UploadSession) : UploadStatusResponse :=
  { sessionId := s.id
    type := s.type
    chunksReceived := s.chunksReceived
    chunksMissing := getMissingChunks s
    totalChunks := s.totalChunks }

/-- The numeric-field validation of the upload start route: each of
`totalSize`, `totalChunks`, `chunkSize` is rejected with a 400 unless it
is a positive number. -/
def startRequestNumericValid (totalSize totalChunks chunkSize : Int) : Bool :=
  (0 < totalSize : Bool) && (0 < totalChunks : Bool) && (0 < chunkSize : Bool)

-- ==================== claim scenario constructions ====================

/-- The client-side split of the round-trip law: cut a buffer into
pieces of `n` bytes, the last piece possibly shorter.  Structured with a
length fuel so that it reduces by plain structural recursion. -/
def splitChunksAux (n : Nat) : Nat → Bytes → List Bytes
  | 0, _ => []
  | _, [] => []
  | fuel + 1, b => b.take n :: splitChunksAux n fuel (b.drop n)

def splitChunks (n : Nat) (b : Bytes) : List Bytes :=
  splitChunksAux n b.length b

/-- Upload a list of chunk indices (with the matching piece as body and
its own hash as the claimed hash) one call after the other; the flag is
`true` iff every call succeeded. -/
def runStores (hash : Bytes → HashStr) (now : Nat) (pieces : List Bytes) :
    List Nat → SessionState → SessionState × Bool
  | [], st => (st, true)
  | k :: rest, st =>
    let data := pieces.getD k []
    let step := storeChunk hash now st (k : Int) data (hash data)
    let tail := runStores hash now pieces rest step.1
    (tail.1, exceptOk step.2 && tail.2)

/-- One concurrent `storeChunk` call reduced to its two session-row
operations: the `findUnique` read at the top of the call (phase one,
snapshotting `chunksReceived`) and the `update` write at the bottom
(phase two, overwriting the row's `chunksReceived` with the sorted
set-insertion computed from the snapshot). -/
structure ChunkCall where
  idx : Int
  snapshot : Option (List Int)
deriving DecidableEq

def stepCall (db : List Int) (c : ChunkCall) : List Int × Option ChunkCall :=
  match c.snapshot with
  | none => (db, some { c with snapshot := some db })
  | some snap => (setAdd snap c.idx, none)

/-- Run two in-flight `storeChunk` calls against the shared
`chunksReceived` column under a schedule: `true` picks the first call,
`false` the second; a finished call is skipped. -/
def runTwo : List Int → Option ChunkCall → Option ChunkCall → List Bool → List Int
  | db, _, _, [] => db
  | db, a, b, pick :: rest =>
    if pick then
      match a with
      | some c =>
        let s := stepCall db c
        runTwo s.1 s.2 b rest
      | none => runTwo db a b rest
    else
      match b with
      | some c =>
        let s := stepCall db c
        runTwo s.1 a s.2 rest
      | none => runTwo db a b rest

-- ==================== helper lemmas ====================

/-- Invariant maintained while uploading the pieces of a split buffer:
the session row differs from the created one only in `chunksReceived`,
whose members are exactly the already-uploaded indices, and every
uploaded index has its piece on disk. -/
def StoreInv (s0 : UploadSession) (pieces : List Bytes) (st : SessionState)
    (done : List Nat) : Prop :=
  (∃ r, st.session = some { s0 with chunksReceived := r } ∧
        (∀ x : Int, x ∈ r ↔ ∃ k ∈ done, ((k : Nat) : Int) = x)) ∧
  (∀ k ∈ done, lookupChunk st.chunkFiles (k : Int) = some (pieces.getD k []))

/-- The round-trip property of C1, as one proposition over the embedded
operations: the session is created, every upload in the given arrival
order succeeds, reassembly returns the original buffer's hash with the
complete file equal to the original bytes and the session completed, and
(last conjunct) any session-row change by `reassembleAndVerify` is a
completion that happened only after the recomputed hash matched the
declared `finalHash` byte for byte. -/
def C1Conclusion (hash : Bytes → HashStr) (B : Bytes) (csz : Nat)
    (p : CreateSessionParams) (t0 newId now1 now2 : Nat) (order : List Nat) : Prop :=
  ∃ s0 : UploadSession,
    createUploadSession t0 newId p = .ok s0 ∧
    (∀ piece ∈ splitChunks csz B, piece.length ≤ csz) ∧
    (splitChunks csz B).flatten = B ∧
    (runStores hash now1 (splitChunks csz B) order
        { session := some s0, chunkFiles := [], completeFile := none }).2 = true ∧
    (∃ st2 : SessionState, ∃ s2 : UploadSession,
      reassembleAndVerify hash now2
          (runStores hash now1 (splitChunks csz B) order
            { session := some s0, chunkFiles := [], completeFile := none }).1 =
        (st2, .ok { verified := true, hash := hash B }) ∧
      st2.completeFile = some B ∧
      st2.session = some s2 ∧ s2.completedAt = some now2 ∧ s2.finalHash = hash B) ∧
    (∀ (now' : Nat) (st st' : SessionState) (res : Except ReassembleError ReassembleResult),
      reassembleAndVerify hash now' st = (st', res) →
      st.session ≠ st'.session →
      ∃ s C, st.session = some s ∧ st'.completeFile = some C ∧
        hashesMatch (hash C) s.finalHash = true ∧ hash C = s.finalHash ∧
        st'.session = some { s with completedAt := some now' })

/-- The session row as `createUploadSession` persists it. -/
def freshSession (t0 newId : Nat) (p : CreateSessionParams) : UploadSession :=
  { id := newId
    modpackVersionId := p.modpackVersionId
    userId := p.userId
    type := p.type
    totalSize := p.totalSize
    totalChunks := p.totalChunks
    chunkSize := p.chunkSize
    finalHash := p.finalHash
    chunksReceived := []
    expiresAt := t0 + SESSION_EXPIRY_HOURS * 60 * 60 * 1000
    completedAt := none
    createdAt := t0 }

/-- A concrete, executable stand-in for the abstract content-hash
function used by the witnesses: always a well-formed `sha256:` digest
(64 chars drawn from `a`-`f`), depending on the buffer's length. -/
def demoHash (b : Bytes) : HashStr :=
  sha256Tag ++ List.replicate 64 (97 + b.length % 6)

def pC1demo : CreateSessionParams :=
  { modpackVersionId := 7
    userId := 3
    type := .icons
    totalSize := 10
    totalChunks := 3
    chunkSize := 4
    finalHash := demoHash [0, 1, 2, 3, 4, 5, 6, 7, 8, 9] }

def sDemo : UploadSession :=
  { id := 1
    modpackVersionId := 7
    userId := 3
    type := .icons
    totalSize := 10
    totalChunks := 3
    chunkSize := 4
    finalHash := demoHash [0, 1, 2, 3, 4, 5, 6, 7, 8, 9]
    chunksReceived := []
    expiresAt := 3600000
    completedAt := none
    createdAt := 0 }

def stDemo : SessionState :=
  { session := some sDemo, chunkFiles := [], completeFile := none }

/-- A well-formed digest that matches no `demoHash` output of the bytes
used below. -/
def fhC2 : HashStr := sha256Tag ++ List.replicate 64 97

def sC2 : UploadSession :=
  { sDemo with
    totalSize := 3
    totalChunks := 1
    chunkSize := 3
    finalHash := fhC2
    chunksReceived := [0] }

def stC2 : SessionState :=
  { session := some sC2, chunkFiles := [(0, [1, 2, 3])], completeFile := none }

def sC4 : UploadSession := { sDemo with expiresAt := 100 }

def stC4 : SessionState :=
  { session := some sC4, chunkFiles := [], completeFile := none }

def sC4b : UploadSession :=
  { sDemo with
    expiresAt := 100
    totalChunks := 1 }

def stC4b : SessionState :=
  { session := some sC4b, chunkFiles := [], completeFile := none }

def sC5 : UploadSession :=
  { sDemo with
    totalSize := 3
    totalChunks := 1
    chunkSize := 3
    finalHash := demoHash [1, 2, 3]
    chunksReceived := [0] }

def stC5 : SessionState :=
  { session := some sC5, chunkFiles := [(0, [1, 2, 3])], completeFile := none }

def stC5done : SessionState :=
  { stC5 with
    completeFile := some [1, 2, 3]
    session := some { sC5 with completedAt := some 5 } }

def rC5 : ReassembleResult := { verified := true, hash := demoHash [1, 2, 3] }

def sC6 : UploadSession := { sDemo with chunksReceived := [0, 2] }

def stC6 : SessionState :=
  { session := some sC6, chunkFiles := [(0, [0, 1, 2, 3]), (2, [8, 9])],
    completeFile := none }

def pC7bad : CreateSessionParams :=
  { modpackVersionId := 7
    userId := 3
    type := .items
    totalSize := -5
    totalChunks := 0
    chunkSize := 0
    finalHash := fhC2 }

def sC8 : UploadSession := { sDemo with totalChunks := 10 }

def sC10 : UploadSession := { sC5 with expiresAt := 10 }

def stC10 : SessionState :=
  { session := some sC10, chunkFiles := [(0, [1, 2, 3])], completeFile := none }

-- ==================== C2 ====================

-- ==================== theorems ====================

theorem nat_or_eq_zero_iff (x y : Nat) : x ||| y = 0 ↔ x = 0 ∧ y = 0 := by
  constructor
  · intro h
    have hx : x = 0 := by
      by_contra hne
      rcases Nat.exists_most_significant_bit hne with ⟨i, hi, _⟩
      have hb : (x ||| y).testBit i = true := by simp [Nat.testBit_or, hi]
      rw [h] at hb; simp at hb
    subst hx; simpa using h
  · rintro ⟨rfl, rfl⟩; rfl

theorem foldl_or_xor_eq_zero (l : List (Nat × Nat)) (acc : Nat) :
    (l.foldl (fun r p => r ||| (p.1 ^^^ p.2)) acc = 0) ↔
      (acc = 0 ∧ ∀ p ∈ l, p.1 = p.2) := by
  induction l generalizing acc with
  | nil => simp
  | cons q l ih =>
    simp only [List.foldl_cons, ih, nat_or_eq_zero_iff, Nat.xor_eq_zero,
      List.mem_cons]
    constructor
    · rintro ⟨⟨ha, hq⟩, hall⟩
      exact ⟨ha, fun p hp => hp.elim (fun h => h ▸ hq) (hall p)⟩
    · rintro ⟨ha, hall⟩
      exact ⟨⟨ha, hall q (Or.inl rfl)⟩, fun p hp => hall p (Or.inr hp)⟩

theorem zip_pointwise_eq (a b : List Nat) (hlen : a.length = b.length) :
    (∀ p ∈ a.zip b, p.1 = p.2) ↔ a = b := by
  induction a generalizing b with
  | nil => cases b <;> simp_all
  | cons x xs ih =>
    cases b with
    | nil => simp at hlen
    | cons y ys =>
      simp only [List.zip_cons_cons, List.mem_cons, List.cons.injEq]
      rw [← ih ys (by simpa using hlen)]
      constructor
      · intro h
        exact ⟨h (x, y) (Or.inl rfl), fun p hp => h p (Or.inr hp)⟩
      · rintro ⟨h1, h2⟩ p hp
        rcases hp with rfl | hp
        · exact h1
        · exact h2 p hp

/-- `hashesMatch` is exactly string equality: the constant-time loop
accepts iff the two digest strings are identical. -/
theorem hashesMatch_iff (a b : HashStr) : hashesMatch a b = true ↔ a = b := by
  unfold hashesMatch
  by_cases hlen : a.length = b.length
  · have hbne : (a.length != b.length) = false := by simp [hlen]
    rw [hbne, if_neg (by simp)]
    rw [show (((a.zip b).foldl (fun r p => r ||| (p.1 ^^^ p.2)) 0) == 0) = true ↔
        ((a.zip b).foldl (fun r p => r ||| (p.1 ^^^ p.2)) 0 = 0) from beq_iff_eq ..]
    rw [foldl_or_xor_eq_zero]
    rw [zip_pointwise_eq a b hlen]
    simp
  · have hbne : (a.length != b.length) = true := by simpa using hlen
    rw [hbne, if_pos rfl]
    constructor
    · intro h; exact absurd h (by simp)
    · intro h; exact absurd (congrArg List.length h) hlen

theorem hashesMatch_self (a : HashStr) : hashesMatch a a = true :=
  (hashesMatch_iff a a).mpr rfl

-- ==================== data model ====================

theorem splitChunksAux_flatten (n : Nat) (hn : 0 < n) :
    ∀ (fuel : Nat) (b : Bytes), b.length ≤ fuel →
      (splitChunksAux n fuel b).flatten = b := by
  intro fuel
  induction fuel with
  | zero =>
    intro b hb
    have hb0 : b = [] := List.eq_nil_of_length_eq_zero (by omega)
    subst hb0
    rfl
  | succ m ih =>
    intro b hb
    cases b with
    | nil => rfl
    | cons x xs =>
      show ((x :: xs).take n :: splitChunksAux n m ((x :: xs).drop n)).flatten = x :: xs
      rw [List.flatten_cons]
      rw [ih ((x :: xs).drop n) (by simp at hb ⊢; omega)]
      exact List.take_append_drop n (x :: xs)

theorem splitChunks_flatten (n : Nat) (hn : 0 < n) (b : Bytes) :
    (splitChunks n b).flatten = b :=
  splitChunksAux_flatten n hn b.length b le_rfl

theorem splitChunksAux_piece_le (n : Nat) :
    ∀ (fuel : Nat) (b : Bytes), ∀ p ∈ splitChunksAux n fuel b, p.length ≤ n := by
  intro fuel
  induction fuel with
  | zero =>
    intro b p hp
    simp [splitChunksAux] at hp
  | succ m ih =>
    intro b p hp
    cases b with
    | nil => simp [splitChunksAux] at hp
    | cons x xs =>
      have hp2 : p ∈ (x :: xs).take n :: splitChunksAux n m ((x :: xs).drop n) := hp
      rcases List.mem_cons.mp hp2 with rfl | hp3
      · simpa using List.length_take_le n (x :: xs)
      · exact ih _ p hp3

theorem splitChunks_piece_le (n : Nat) (b : Bytes) :
    ∀ p ∈ splitChunks n b, p.length ≤ n :=
  splitChunksAux_piece_le n b.length b

theorem mem_insertAsc (x y : Int) (l : List Int) :
    y ∈ insertAsc x l ↔ y = x ∨ y ∈ l := by
  induction l with
  | nil => simp [insertAsc]
  | cons z zs ih =>
    unfold insertAsc
    split
    · simp [List.mem_cons]
    · simp only [List.mem_cons, ih]
      tauto

theorem mem_sortAsc (y : Int) (l : List Int) : y ∈ sortAsc l ↔ y ∈ l := by
  induction l with
  | nil => simp [sortAsc]
  | cons z zs ih =>
    show y ∈ insertAsc z (sortAsc zs) ↔ _
    rw [mem_insertAsc]
    simp [ih]

theorem mem_setAdd (y x : Int) (l : List Int) :
    y ∈ setAdd l x ↔ y ∈ l ∨ y = x := by
  unfold setAdd
  rw [mem_sortAsc, List.mem_dedup, List.mem_append]
  simp

theorem lookupChunk_cons (i j : Int) (d : Bytes) (fs : List (Int × Bytes)) :
    lookupChunk ((j, d) :: fs) i = if j = i then some d else lookupChunk fs i :=
  rfl

theorem readChunksFrom_ok (files : List (Int × Bytes)) (f : Nat → Bytes)
    (start k : Nat)
    (h : ∀ j, j < k → lookupChunk files ((start + j : Nat) : Int) = some (f (start + j))) :
    readChunksFrom files start k = .ok ((List.range k).map (fun j => f (start + j))) := by
  induction k generalizing start with
  | zero => simp [readChunksFrom]
  | succ m ih =>
    have h0 : lookupChunk files ((start : Nat) : Int) = some (f start) := by
      simpa using h 0 (Nat.succ_pos m)
    have hrest : readChunksFrom files (start + 1) m =
        .ok ((List.range m).map (fun j => f (start + 1 + j))) := by
      apply ih
      intro j hj
      have := h (j + 1) (by omega)
      simpa [Nat.add_assoc, Nat.add_comm 1 j] using this
    unfold readChunksFrom
    rw [h0, hrest]
    rw [List.range_succ_eq_map]
    simp only [List.map_cons, List.map_map, Nat.add_zero]
    congr 2
    apply List.map_congr_left
    intro j _
    simp only [Function.comp_apply]
    congr 1
    omega

theorem map_getD_range (l : List Bytes) :
    (List.range l.length).map (fun j => l.getD j []) = l := by
  induction l with
  | nil => simp
  | cons x xs ih =>
    show (List.range (xs.length + 1)).map _ = _
    rw [List.range_succ_eq_map]
    simp only [List.map_cons, List.map_map, List.getD_cons_zero]
    congr 1

theorem int_contains_iff (l : List Int) (x : Int) :
    l.contains x = true ↔ x ∈ l := by
  simp [List.contains]

-- ==================== service-level lemmas ====================

theorem not_invalid_index (i T : Int) (hlo : 0 ≤ i) (hhi : i < T) :
    ¬ (i < 0 ∨ T ≤ i) := by
  rw [not_or]
  exact ⟨not_lt.mpr hlo, not_le.mpr hhi⟩

/-- Successful `storeChunk`: all four guards pass, the chunk file is
written and the row's `chunksReceived` is re-written with the sorted
set-insertion. -/
theorem storeChunk_ok (hash : Bytes → HashStr) (now : Nat) (st : SessionState)
    (s : UploadSession) (i : Int) (data : Bytes) (eh : HashStr)
    (hs : st.session = some s) (hexp : ¬ s.expiresAt < now)
    (hlo : 0 ≤ i) (hhi : i < s.totalChunks)
    (hmatch : hashesMatch (hash data) eh = true) :
    storeChunk hash now st i data eh =
      ({ st with
          chunkFiles := (i, data) :: st.chunkFiles
          session := some { s with chunksReceived := setAdd s.chunksReceived i } },
       .ok { verified := true
             session := { s with chunksReceived := setAdd s.chunksReceived i }
             chunksReceived := (setAdd s.chunksReceived i).length
             chunksRemaining := s.totalChunks - (setAdd s.chunksReceived i).length }) := by
  simp only [storeChunk, hs]
  rw [if_neg hexp, if_neg (not_invalid_index i s.totalChunks hlo hhi)]
  rw [hmatch]
  rfl

/-- `storeChunk` on a chunk-hash mismatch: the exact error of the source
(expected = the claimed hash, received = the recomputed hash) and the
state returned untouched. -/
theorem storeChunk_mismatch (hash : Bytes → HashStr) (now : Nat) (st : SessionState)
    (s : UploadSession) (i : Int) (data : Bytes) (eh : HashStr)
    (hs : st.session = some s) (hexp : ¬ s.expiresAt < now)
    (hlo : 0 ≤ i) (hhi : i < s.totalChunks)
    (hmis : hashesMatch (hash data) eh = false) :
    storeChunk hash now st i data eh =
      (st, .error (.chunkHashMismatch eh (hash data))) := by
  simp only [storeChunk, hs]
  rw [if_neg hexp, if_neg (not_invalid_index i s.totalChunks hlo hhi)]
  rw [hmis]
  rfl

/-- `storeChunk` on an expired session: rejected before anything is
looked at or written, whatever the index, body and claimed hash. -/
theorem storeChunk_expired (hash : Bytes → HashStr) (now : Nat) (st : SessionState)
    (s : UploadSession) (i : Int) (data : Bytes) (eh : HashStr)
    (hs : st.session = some s) (hexp : s.expiresAt < now) :
    storeChunk hash now st i data eh = (st, .error .sessionExpired) := by
  simp only [storeChunk, hs]
  rw [if_pos hexp]

/-- `storeChunk` never changes a session's `expiresAt` (nor, on the
error paths, anything at all): a trickle of chunks cannot move the
deadline. -/
theorem storeChunk_preserves_expiry (hash : Bytes → HashStr) (now : Nat)
    (st st' : SessionState) (i : Int) (data : Bytes) (eh : HashStr)
    (r : Except StoreChunkError StoreChunkResult)
    (h : storeChunk hash now st i data eh = (st', r)) :
    st'.session.map (·.expiresAt) = st.session.map (·.expiresAt) := by
  unfold storeChunk at h
  split at h
  · cases h; rfl
  · rename_i s hs
    split at h
    · cases h; rfl
    · split at h
      · cases h; rfl
      · simp only [] at h
        split at h
        · cases h; rfl
        · cases h
          simp [hs]

/-- `storeChunk` never touches `completedAt` either. -/
theorem storeChunk_preserves_completedAt (hash : Bytes → HashStr) (now : Nat)
    (st st' : SessionState) (i : Int) (data : Bytes) (eh : HashStr)
    (r : Except StoreChunkError StoreChunkResult)
    (h : storeChunk hash now st i data eh = (st', r)) :
    st'.session.map (·.completedAt) = st.session.map (·.completedAt) := by
  unfold storeChunk at h
  split at h
  · cases h; rfl
  · rename_i s hs
    split at h
    · cases h; rfl
    · split at h
      · cases h; rfl
      · simp only [] at h
        split at h
        · cases h; rfl
        · cases h
          simp [hs]

theorem mem_range_map_cast (n : Nat) (i : Int) :
    i ∈ (List.range n).map (fun (j : Nat) => (j : Int)) ↔ 0 ≤ i ∧ i < (n : Int) := by
  constructor
  · intro h
    rcases List.mem_map.mp h with ⟨j, hj, rfl⟩
    rw [List.mem_range] at hj
    omega
  · rintro ⟨h0, hn⟩
    apply List.mem_map.mpr
    refine ⟨i.toNat, List.mem_range.mpr (by omega), by omega⟩

theorem mem_getMissingChunks (s : UploadSession) (i : Int) :
    i ∈ getMissingChunks s ↔ 0 ≤ i ∧ i < s.totalChunks ∧ i ∉ s.chunksReceived := by
  unfold getMissingChunks
  rw [List.mem_filter]
  rw [mem_range_map_cast]
  constructor
  · rintro ⟨⟨h0, hlt⟩, hpred⟩
    refine ⟨h0, by omega, ?_⟩
    intro hin
    rw [← int_contains_iff] at hin
    rw [hin] at hpred
    simp at hpred
  · rintro ⟨h0, hlt, hnm⟩
    refine ⟨⟨h0, by omega⟩, ?_⟩
    have hc : s.chunksReceived.contains i = false := by
      rw [Bool.eq_false_iff]
      intro hcc
      exact hnm ((int_contains_iff _ _).mp hcc)
    rw [hc]
    rfl

theorem getMissingChunks_sorted (s : UploadSession) :
    (getMissingChunks s).Pairwise (· < ·) := by
  unfold getMissingChunks
  apply List.Pairwise.filter
  rw [List.pairwise_map]
  exact (List.pairwise_lt_range _).imp (fun h => by exact_mod_cast h)

theorem getMissingChunks_eq_nil_iff (s : UploadSession) :
    getMissingChunks s = [] ↔
      ∀ i : Int, 0 ≤ i → i < s.totalChunks → i ∈ s.chunksReceived := by
  constructor
  · intro h i h0 hlt
    by_contra hnm
    have hmem : i ∈ getMissingChunks s := (mem_getMissingChunks s i).mpr ⟨h0, hlt, hnm⟩
    rw [h] at hmem
    simp at hmem
  · intro h
    apply List.eq_nil_iff_forall_not_mem.mpr
    intro i hi
    rcases (mem_getMissingChunks s i).mp hi with ⟨h0, hlt, hnm⟩
    exact hnm (h i h0 hlt)

/-- `getMissingChunks` ignores every session field except `totalChunks`
and `chunksReceived`; in particular completion and expiry do not change
it. -/
theorem getMissingChunks_update (s : UploadSession) (c : Option Nat) :
    getMissingChunks { s with completedAt := c } = getMissingChunks s :=
  rfl

/-- Successful `reassembleAndVerify`: nothing missing, every chunk file
read in ascending order, concatenation written to the complete path,
recomputed hash matching; `completedAt` is overwritten with `now`. -/
theorem reassemble_ok (hash : Bytes → HashStr) (now : Nat) (st : SessionState)
    (s : UploadSession) (chunks : List Bytes)
    (hs : st.session = some s)
    (hmiss : getMissingChunks s = [])
    (hread : readChunks st.chunkFiles s.totalChunks.toNat = .ok chunks)
    (hmatch : hashesMatch (hash chunks.flatten) s.finalHash = true) :
    reassembleAndVerify hash now st =
      ({ st with
          completeFile := some chunks.flatten
          session := some { s with completedAt := some now } },
       .ok { verified := true, hash := hash chunks.flatten }) := by
  simp only [reassembleAndVerify, hs, hmiss, hread]
  rw [if_neg (by simp)]
  simp only [hmatch, Bool.not_true]
  rw [if_neg (by simp)]

/-- `reassembleAndVerify` on a final-hash mismatch: the
`FinalHashMismatch(expected, actual)` error is thrown with the session
row untouched, but the assembled bytes have already been written to the
`complete` path and stay there. -/
theorem reassemble_mismatch (hash : Bytes → HashStr) (now : Nat) (st : SessionState)
    (s : UploadSession) (chunks : List Bytes)
    (hs : st.session = some s)
    (hmiss : getMissingChunks s = [])
    (hread : readChunks st.chunkFiles s.totalChunks.toNat = .ok chunks)
    (hmis : hashesMatch (hash chunks.flatten) s.finalHash = false) :
    reassembleAndVerify hash now st =
      ({ st with completeFile := some chunks.flatten },
       .error (.finalHashMismatch s.finalHash (hash chunks.flatten))) := by
  simp only [reassembleAndVerify, hs, hmiss, hread]
  rw [if_neg (by simp)]
  simp only [hmis, Bool.not_false]
  simp [hs]

/-- `reassembleAndVerify` with missing chunks: fails with exactly the
derived missing list and changes nothing. -/
theorem reassemble_missing (hash : Bytes → HashStr) (now : Nat) (st : SessionState)
    (s : UploadSession)
    (hs : st.session = some s)
    (hne : getMissingChunks s ≠ []) :
    reassembleAndVerify hash now st =
      (st, .error (.chunksMissing (getMissingChunks s))) := by
  simp only [reassembleAndVerify, hs]
  rw [if_pos (List.length_pos.mpr hne)]

/-- `reassembleAndVerify` on a session that does not exist. -/
theorem reassemble_notFound (hash : Bytes → HashStr) (now : Nat) (st : SessionState)
    (hs : st.session = none) :
    reassembleAndVerify hash now st = (st, .error .sessionNotFound) := by
  simp only [reassembleAndVerify, hs]

/-- `reassembleAndVerify` when a recorded chunk file is gone from disk. -/
theorem reassemble_readError (hash : Bytes → HashStr) (now : Nat) (st : SessionState)
    (s : UploadSession) (i : Int)
    (hs : st.session = some s)
    (hmiss : getMissingChunks s = [])
    (hread : readChunks st.chunkFiles s.totalChunks.toNat = .error i) :
    reassembleAndVerify hash now st = (st, .error (.chunkFileMissing i)) := by
  simp only [reassembleAndVerify, hs, hmiss, hread]
  rw [if_neg (by simp)]

/-- On every error path of `reassembleAndVerify` the session row and the
chunk files are untouched (only the complete file may have been
written). -/
theorem reassemble_error_session_eq (hash : Bytes → HashStr) (now : Nat)
    (st st' : SessionState) (e : ReassembleError)
    (h : reassembleAndVerify hash now st = (st', .error e)) :
    st'.session = st.session ∧ st'.chunkFiles = st.chunkFiles := by
  cases hses : st.session with
  | none =>
    rw [reassemble_notFound hash now st hses] at h
    cases h
    exact ⟨hses, rfl⟩
  | some s =>
    by_cases hm : getMissingChunks s = []
    · cases hread : readChunks st.chunkFiles s.totalChunks.toNat with
      | error i =>
        rw [reassemble_readError hash now st s i hses hm hread] at h
        cases h
        exact ⟨hses, rfl⟩
      | ok chunks =>
        cases hv : hashesMatch (hash chunks.flatten) s.finalHash with
        | true =>
          rw [reassemble_ok hash now st s chunks hses hm hread hv] at h
          exact absurd (congrArg Prod.snd h) (by simp)
        | false =>
          rw [reassemble_mismatch hash now st s chunks hses hm hread hv] at h
          cases h
          exact ⟨hses, rfl⟩
    · rw [reassemble_missing hash now st s hses hm] at h
      cases h
      exact ⟨hses, rfl⟩

/-- Inversion of a successful `reassembleAndVerify`: the success branch
is the only one producing `.ok`, so all its guards held and the output
state is exactly the completed one. -/
theorem reassemble_ok_inv (hash : Bytes → HashStr) (now : Nat)
    (st st' : SessionState) (r : ReassembleResult)
    (h : reassembleAndVerify hash now st = (st', .ok r)) :
    ∃ s chunks, st.session = some s ∧ getMissingChunks s = [] ∧
      readChunks st.chunkFiles s.totalChunks.toNat = .ok chunks ∧
      hashesMatch (hash chunks.flatten) s.finalHash = true ∧
      r = { verified := true, hash := hash chunks.flatten } ∧
      st' = { st with
                completeFile := some chunks.flatten
                session := some { s with completedAt := some now } } := by
  cases hses : st.session with
  | none =>
    rw [reassemble_notFound hash now st hses] at h
    exact absurd (congrArg Prod.snd h) (by simp)
  | some s =>
    by_cases hm : getMissingChunks s = []
    · cases hread : readChunks st.chunkFiles s.totalChunks.toNat with
      | error i =>
        rw [reassemble_readError hash now st s i hses hm hread] at h
        exact absurd (congrArg Prod.snd h) (by simp)
      | ok chunks =>
        cases hv : hashesMatch (hash chunks.flatten) s.finalHash with
        | true =>
          rw [reassemble_ok hash now st s chunks hses hm hread hv] at h
          have h1 := congrArg Prod.fst h
          have h2 := congrArg Prod.snd h
          simp only [] at h1 h2
          refine ⟨s, chunks, rfl, hm, hread, hv, ?_, ?_⟩
          · cases h2; rfl
          · cases h1; rfl
        | false =>
          rw [reassemble_mismatch hash now st s chunks hses hm hread hv] at h
          exact absurd (congrArg Prod.snd h) (by simp)
    · rw [reassemble_missing hash now st s hses hm] at h
      exact absurd (congrArg Prod.snd h) (by simp)

/-- Inversion of a `ChunksMissing` failure: the carried list is exactly
`getMissingChunks`, it is non-empty, and nothing changed. -/
theorem reassemble_missing_inv (hash : Bytes → HashStr) (now : Nat)
    (st st' : SessionState) (m : List Int) (s : UploadSession)
    (hs : st.session = some s)
    (h : reassembleAndVerify hash now st = (st', .error (.chunksMissing m))) :
    m = getMissingChunks s ∧ st' = st ∧ m ≠ [] := by
  by_cases hm : getMissingChunks s = []
  · cases hread : readChunks st.chunkFiles s.totalChunks.toNat with
    | error i =>
      rw [reassemble_readError hash now st s i hs hm hread] at h
      exact absurd (congrArg Prod.snd h) (by simp)
    | ok chunks =>
      cases hv : hashesMatch (hash chunks.flatten) s.finalHash with
      | true =>
        rw [reassemble_ok hash now st s chunks hs hm hread hv] at h
        exact absurd (congrArg Prod.snd h) (by simp)
      | false =>
        rw [reassemble_mismatch hash now st s chunks hs hm hread hv] at h
        exact absurd (congrArg Prod.snd h) (by simp)
  · rw [reassemble_missing hash now st s hs hm] at h
    have h2 := congrArg Prod.snd h
    have h1 := congrArg Prod.fst h
    simp only [] at h1 h2
    cases h2
    exact ⟨rfl, (by cases h1; rfl), hm⟩

-- ==================== round-trip infrastructure (C1) ====================

theorem storeInv_step (hash : Bytes → HashStr) (now : Nat)
    (s0 : UploadSession) (pieces : List Bytes) (st : SessionState) (done : List Nat)
    (k : Nat)
    (hinv : StoreInv s0 pieces st done)
    (hk : k < pieces.length)
    (hN : s0.totalChunks = (pieces.length : Int))
    (hexp : ¬ s0.expiresAt < now) :
    exceptOk (storeChunk hash now st (k : Int) (pieces.getD k [])
        (hash (pieces.getD k []))).2 = true ∧
    StoreInv s0 pieces
      (storeChunk hash now st (k : Int) (pieces.getD k []) (hash (pieces.getD k []))).1
      (done ++ [k]) := by
  obtain ⟨⟨r, hsess, hr⟩, hfiles⟩ := hinv
  have hlt : (k : Int) < ({ s0 with chunksReceived := r } : UploadSession).totalChunks := by
    show (k : Int) < s0.totalChunks
    rw [hN]
    exact_mod_cast hk
  have hsc := storeChunk_ok hash now st { s0 with chunksReceived := r } (k : Int)
      (pieces.getD k []) (hash (pieces.getD k [])) hsess hexp
      (by exact_mod_cast Nat.zero_le k) hlt (hashesMatch_self _)
  rw [hsc]
  refine ⟨rfl, ⟨setAdd r (k : Int), rfl, ?_⟩, ?_⟩
  · intro x
    rw [mem_setAdd, hr]
    constructor
    · rintro (⟨j, hj, rfl⟩ | rfl)
      · exact ⟨j, List.mem_append_left _ hj, rfl⟩
      · exact ⟨k, List.mem_append_right _ (List.mem_singleton_self k), rfl⟩
    · rintro ⟨j, hj, rfl⟩
      rcases List.mem_append.mp hj with hj | hj
      · exact Or.inl ⟨j, hj, rfl⟩
      · rw [List.mem_singleton.mp hj]
        exact Or.inr rfl
  · intro k' hk'
    rw [lookupChunk_cons]
    by_cases hkk : (k : Int) = (k' : Int)
    · have : k = k' := by exact_mod_cast hkk
      subst this
      rw [if_pos rfl]
    · rw [if_neg hkk]
      rcases List.mem_append.mp hk' with hk' | hk'
      · exact hfiles k' hk'
      · exact absurd (congrArg (fun (j : Nat) => (j : Int)) (List.mem_singleton.mp hk')).symm hkk

theorem runStores_inv (hash : Bytes → HashStr) (now : Nat)
    (s0 : UploadSession) (pieces : List Bytes)
    (order : List Nat) (st : SessionState) (done : List Nat)
    (hinv : StoreInv s0 pieces st done)
    (hord : ∀ k ∈ order, k < pieces.length)
    (hN : s0.totalChunks = (pieces.length : Int))
    (hexp : ¬ s0.expiresAt < now) :
    (runStores hash now pieces order st).2 = true ∧
    StoreInv s0 pieces (runStores hash now pieces order st).1 (done ++ order) := by
  induction order generalizing st done with
  | nil =>
    simp only [runStores, List.append_nil]
    exact ⟨trivial, hinv⟩
  | cons k rest ih =>
    have hk : k < pieces.length := hord k (List.mem_cons_self k rest)
    obtain ⟨hok, hinv'⟩ := storeInv_step hash now s0 pieces st done k hinv hk hN hexp
    obtain ⟨hflag, hinv''⟩ := ih
      (storeChunk hash now st (k : Int) (pieces.getD k []) (hash (pieces.getD k []))).1
      (done ++ [k]) hinv' (fun j hj => hord j (List.mem_cons_of_mem _ hj))
    constructor
    · show (runStores hash now pieces (k :: rest) st).2 = true
      simp only [runStores]
      rw [Bool.and_eq_true]
      exact ⟨hok, hflag⟩
    · show StoreInv s0 pieces (runStores hash now pieces (k :: rest) st).1 _
      have harr : (done ++ [k]) ++ rest = done ++ (k :: rest) := by
        rw [List.append_assoc, List.singleton_append]
      rw [← harr]
      simpa only [runStores] using hinv''

theorem readChunks_pieces (files : List (Int × Bytes)) (pieces : List Bytes)
    (h : ∀ k, k < pieces.length → lookupChunk files (k : Int) = some (pieces.getD k [])) :
    readChunks files pieces.length = .ok pieces := by
  unfold readChunks
  have hrw := readChunksFrom_ok files (fun idx => pieces.getD idx []) 0 pieces.length
    (by intro j hj; simpa using h j hj)
  rw [hrw]
  congr 1
  have hmap : ((List.range pieces.length).map (fun j => pieces.getD (0 + j) [])) =
      (List.range pieces.length).map (fun j => pieces.getD j []) := by
    apply List.map_congr_left
    intro j _
    rw [Nat.zero_add]
  rw [hmap, map_getD_range]

/-- If `reassembleAndVerify` changed the session row at all, it was the
success branch: the row was marked completed at the call's time, and the
recomputed hash of the assembled bytes equals the declared `finalHash`
byte for byte. -/
theorem reassemble_session_change (hash : Bytes → HashStr) (now' : Nat)
    (st st' : SessionState) (res : Except ReassembleError ReassembleResult)
    (h : reassembleAndVerify hash now' st = (st', res))
    (hne : st.session ≠ st'.session) :
    ∃ s C, st.session = some s ∧ st'.completeFile = some C ∧
      hashesMatch (hash C) s.finalHash = true ∧ hash C = s.finalHash ∧
      st'.session = some { s with completedAt := some now' } := by
  cases res with
  | error e =>
    exact absurd ((reassemble_error_session_eq hash now' st st' e h).1).symm hne
  | ok r =>
    obtain ⟨s, chunks, hs, _, _, hv, _, hst⟩ := reassemble_ok_inv hash now' st st' r h
    subst hst
    exact ⟨s, chunks.flatten, hs, rfl, hv, (hashesMatch_iff _ _).mp hv, rfl⟩

theorem createUploadSession_ok (t0 newId : Nat) (p : CreateSessionParams)
    (hvalidp : isValidHash p.finalHash = true) :
    createUploadSession t0 newId p = .ok (freshSession t0 newId p) := by
  simp only [createUploadSession, hvalidp, Bool.not_true]
  rw [if_neg (by simp)]
  rfl

theorem storeInv_init (s0 : UploadSession) (pieces : List Bytes)
    (hrecv : s0.chunksReceived = []) :
    StoreInv s0 pieces
      { session := some s0, chunkFiles := [], completeFile := none } [] := by
  refine ⟨⟨[], ?_, ?_⟩, ?_⟩
  · show some s0 = _
    rw [← hrecv]
  · intro x
    simp
  · intro k hk
    simp at hk

/-- C1: the round-trip law holds for an arbitrary buffer, chunk size,
and arrival order covering all indices. -/
theorem c1_round_trip (hash : Bytes → HashStr) (B : Bytes) (csz : Nat)
    (p : CreateSessionParams) (t0 newId now1 now2 : Nat) (order : List Nat)
    (hcsz : 0 < csz)
    (hfh : p.finalHash = hash B)
    (htc : p.totalChunks = ((splitChunks csz B).length : Int))
    (hvalid : isValidHash (hash B) = true)
    (hnow1 : now1 ≤ t0 + SESSION_EXPIRY_HOURS * 60 * 60 * 1000)
    (hcover : ∀ k, k < (splitChunks csz B).length → k ∈ order)
    (horder : ∀ k ∈ order, k < (splitChunks csz B).length) :
    C1Conclusion hash B csz p t0 newId now1 now2 order := by
  have hvalidp : isValidHash p.finalHash = true := by rw [hfh]; exact hvalid
  refine ⟨freshSession t0 newId p, createUploadSession_ok t0 newId p hvalidp,
    splitChunks_piece_le csz B, splitChunks_flatten csz hcsz B, ?_, ?_, ?_⟩
  pick_goal 3
  · exact fun now' st st' res h hne =>
      reassemble_session_change hash now' st st' res h hne
  · exact (runStores_inv hash now1 (freshSession t0 newId p) (splitChunks csz B)
      order _ [] (storeInv_init _ _ rfl) horder htc (not_lt.mpr hnow1)).1
  · have hrun := runStores_inv hash now1 (freshSession t0 newId p)
      (splitChunks csz B) order
      { session := some (freshSession t0 newId p), chunkFiles := [],
        completeFile := none } [] (storeInv_init _ _ rfl) horder htc
      (not_lt.mpr hnow1)
    obtain ⟨hflag, hinv1⟩ := hrun
    obtain ⟨⟨r, hsess1, hr1⟩, hfiles1⟩ := hinv1
    have hrmem : ∀ k : Nat, k < (splitChunks csz B).length → ((k : Nat) : Int) ∈ r := by
      intro k hk
      exact (hr1 _).mpr ⟨k, by simpa using hcover k hk, rfl⟩
    have hmiss : getMissingChunks
        { freshSession t0 newId p with chunksReceived := r } = [] := by
      rw [getMissingChunks_eq_nil_iff]
      intro i h0 hlt
      have hlt2 : i < ((splitChunks csz B).length : Int) := by
        have htc2 : ({ freshSession t0 newId p with chunksReceived := r } :
            UploadSession).totalChunks = p.totalChunks := rfl
        rw [htc2, htc] at hlt
        exact hlt
      have hm2 : ((i.toNat : Nat) : Int) ∈ r := hrmem i.toNat (by omega)
      have heq : ((i.toNat : Nat) : Int) = i := by omega
      rwa [heq] at hm2
    have htcnat : ({ freshSession t0 newId p with chunksReceived := r } :
        UploadSession).totalChunks.toNat = (splitChunks csz B).length := by
      have htc2 : ({ freshSession t0 newId p with chunksReceived := r } :
          UploadSession).totalChunks = ((splitChunks csz B).length : Int) := htc
      rw [htc2]
      omega
    have hread : readChunks (runStores hash now1 (splitChunks csz B) order
        { session := some (freshSession t0 newId p), chunkFiles := [],
          completeFile := none }).1.chunkFiles
        ({ freshSession t0 newId p with chunksReceived := r } :
          UploadSession).totalChunks.toNat = .ok (splitChunks csz B) := by
      rw [htcnat]
      apply readChunks_pieces
      intro k hk
      have hk2 : k ∈ ([] : List Nat) ++ order := by simpa using hcover k hk
      exact hfiles1 k hk2
    have hfh2 : ({ freshSession t0 newId p with chunksReceived := r } :
        UploadSession).finalHash = hash B := hfh
    have hmatch : hashesMatch (hash (splitChunks csz B).flatten)
        ({ freshSession t0 newId p with chunksReceived := r } :
          UploadSession).finalHash = true := by
      rw [hfh2, splitChunks_flatten csz hcsz B]
      exact hashesMatch_self _
    have hre := reassemble_ok hash now2
      (runStores hash now1 (splitChunks csz B) order
        { session := some (freshSession t0 newId p), chunkFiles := [],
          completeFile := none }).1
      { freshSession t0 newId p with chunksReceived := r }
      (splitChunks csz B) hsess1 hmiss hread hmatch
    rw [splitChunks_flatten csz hcsz B] at hre
    exact ⟨_, _, hre, rfl, rfl, rfl, hfh2⟩

-- ==================== concrete demo values ====================

theorem c1_cover_demo :
    ∀ k, k < (splitChunks 4 ([0, 1, 2, 3, 4, 5, 6, 7, 8, 9] : Bytes)).length →
      k ∈ [2, 0, 1] := by
  have h3 : (splitChunks 4 ([0, 1, 2, 3, 4, 5, 6, 7, 8, 9] : Bytes)).length = 3 := by
    decide
  intro k hk
  rw [h3] at hk
  interval_cases k <;> decide

/-- Witness for C1: a concrete 10-byte buffer split at chunk size 4 into
3 pieces, uploaded in the out-of-order arrival [2, 0, 1] before expiry,
then reassembled. -/
theorem c1_round_trip_witness :
    C1Conclusion demoHash [0, 1, 2, 3, 4, 5, 6, 7, 8, 9] 4 pC1demo 0 1 1000 2000
      [2, 0, 1] :=
  c1_round_trip demoHash [0, 1, 2, 3, 4, 5, 6, 7, 8, 9] 4 pC1demo 0 1 1000 2000
    [2, 0, 1] (by decide) rfl (by decide) (by decide) (by decide) c1_cover_demo
    (by decide)

/-- C2 (amended): with all chunks present but the reassembled bytes
hashing differently from the declared `finalHash`, `reassembleAndVerify`
fails with `FinalHashMismatch(expected = finalHash, actual)` and the
session row is untouched (`completedAt` stays null), BUT the assembled
bytes are not discarded: they were written to the session's `complete`
path before verification and remain there. -/
theorem c2_final_hash_mismatch (hash : Bytes → HashStr) (now : Nat)
    (st : SessionState) (s : UploadSession) (chunks : List Bytes)
    (hs : st.session = some s)
    (hmiss : getMissingChunks s = [])
    (hread : readChunks st.chunkFiles s.totalChunks.toNat = .ok chunks)
    (hmis : hashesMatch (hash chunks.flatten) s.finalHash = false) :
    reassembleAndVerify hash now st =
      ({ st with completeFile := some chunks.flatten },
       .error (.finalHashMismatch s.finalHash (hash chunks.flatten))) ∧
    ({ st with completeFile := some chunks.flatten } : SessionState).session
      = st.session ∧
    ({ st with completeFile := some chunks.flatten } : SessionState).completeFile
      ≠ none :=
  ⟨reassemble_mismatch hash now st s chunks hs hmiss hread hmis, rfl, by simp⟩

theorem c2_final_hash_mismatch_witness :
    reassembleAndVerify demoHash 5 stC2 =
      ({ stC2 with completeFile := some (([[1, 2, 3]] : List Bytes).flatten) },
       .error (.finalHashMismatch fhC2 (demoHash (([[1, 2, 3]] : List Bytes).flatten)))) ∧
    ({ stC2 with completeFile := some (([[1, 2, 3]] : List Bytes).flatten) } :
      SessionState).session = stC2.session ∧
    ({ stC2 with completeFile := some (([[1, 2, 3]] : List Bytes).flatten) } :
      SessionState).completeFile ≠ none :=
  c2_final_hash_mismatch demoHash 5 stC2 sC2 [[1, 2, 3]] rfl (by decide) (by decide)
    (by decide)

/-- Counterexample to C2 as stated: on a final-hash mismatch the
assembled bytes are NOT discarded — the complete-file artifact is left
on disk (while the error and the pending row match the claim). -/
theorem c2_counterexample :
    (reassembleAndVerify demoHash 5 stC2).2 =
      .error (.finalHashMismatch fhC2 (demoHash [1, 2, 3])) ∧
    (reassembleAndVerify demoHash 5 stC2).1.completeFile = some [1, 2, 3] ∧
    (reassembleAndVerify demoHash 5 stC2).1.completeFile ≠ none ∧
    (reassembleAndVerify demoHash 5 stC2).1.session.map (·.completedAt) = some none := by
  decide

-- ==================== C3 ====================

/-- C3: a chunk upload whose bytes hash differently from the claimed
hash fails with `ChunkHashMismatch(expected, actual)`; the state is
returned exactly as it was, so the chunk is not persisted and the index
is not recorded. -/
theorem c3_chunk_hash_mismatch (hash : Bytes → HashStr) (now : Nat)
    (st : SessionState) (s : UploadSession) (i : Int) (data : Bytes) (eh : HashStr)
    (hs : st.session = some s) (hexp : ¬ s.expiresAt < now)
    (hlo : 0 ≤ i) (hhi : i < s.totalChunks)
    (hmis : hashesMatch (hash data) eh = false) :
    storeChunk hash now st i data eh =
      (st, .error (.chunkHashMismatch eh (hash data))) ∧
    (storeChunk hash now st i data eh).1.chunkFiles = st.chunkFiles ∧
    (storeChunk hash now st i data eh).1.session = some s := by
  have h := storeChunk_mismatch hash now st s i data eh hs hexp hlo hhi hmis
  exact ⟨h, by rw [h], by rw [h]; exact hs⟩

theorem c3_chunk_hash_mismatch_witness :
    storeChunk demoHash 1000 stDemo 1 [5, 6, 7, 8] fhC2 =
      (stDemo, .error (.chunkHashMismatch fhC2 (demoHash [5, 6, 7, 8]))) ∧
    (storeChunk demoHash 1000 stDemo 1 [5, 6, 7, 8] fhC2).1.chunkFiles
      = stDemo.chunkFiles ∧
    (storeChunk demoHash 1000 stDemo 1 [5, 6, 7, 8] fhC2).1.session = some sDemo :=
  c3_chunk_hash_mismatch demoHash 1000 stDemo sDemo 1 [5, 6, 7, 8] fhC2 rfl
    (by decide) (by decide) (by decide) (by decide)

-- ==================== C4 ====================

/-- C4 (amended): once `expiresAt` lies STRICTLY before `now`, every
`storeChunk` call — whatever the index, body and claimed hash — fails
with `SessionExpired` and persists nothing; the expiry check runs on
every call and `storeChunk` never changes `expiresAt`, so a trickle of
chunks cannot extend the deadline.  (At the exact boundary
`expiresAt = now` the source's strict `<` comparison still accepts the
chunk — see the counterexample.) -/
theorem c4_expired_rejected (hash : Bytes → HashStr) (now : Nat)
    (st : SessionState) (s : UploadSession)
    (hs : st.session = some s) (hexp : s.expiresAt < now) :
    (∀ (i : Int) (data : Bytes) (eh : HashStr),
      storeChunk hash now st i data eh = (st, .error .sessionExpired)) ∧
    (∀ (now' : Nat) (st1 st2 : SessionState) (i : Int) (d : Bytes) (e : HashStr)
        (r : Except StoreChunkError StoreChunkResult),
      storeChunk hash now' st1 i d e = (st2, r) →
      st2.session.map (·.expiresAt) = st1.session.map (·.expiresAt)) :=
  ⟨fun i data eh => storeChunk_expired hash now st s i data eh hs hexp,
   fun now' st1 st2 i d e r h =>
     storeChunk_preserves_expiry hash now' st1 st2 i d e r h⟩

theorem c4_expired_rejected_witness :
    storeChunk demoHash 101 stC4 2 [9] [] = (stC4, .error .sessionExpired) :=
  (c4_expired_rejected demoHash 101 stC4 sC4 rfl (by decide)).1 2 [9] []

/-- Counterexample to C4 as stated: at the exact boundary
`expiresAt = now` (claim says `expiresAt <= now` must be rejected) the
chunk is accepted and persisted. -/
theorem c4_counterexample :
    sC4b.expiresAt ≤ 100 ∧
    (storeChunk demoHash 100 stC4b 0 [9] (demoHash [9])).2 =
      .ok { verified := true
            session := { sC4b with chunksReceived := [0] }
            chunksReceived := 1
            chunksRemaining := 0 } := by
  decide

-- ==================== C5 ====================

/-- C5 (amended): a successful reassembly sets `completedAt` to the call
time whatever its previous value — there is no already-completed guard.
Repeating `reassembleAndVerify` on the unchanged state re-runs the full
verification, returns the same verified result, and overwrites
`completedAt` with the second call's time. -/
theorem c5_recompletion (hash : Bytes → HashStr) (now1 now2 : Nat)
    (st st1 : SessionState) (r1 : ReassembleResult)
    (h1 : reassembleAndVerify hash now1 st = (st1, .ok r1)) :
    st1.session.map (·.completedAt) = some (some now1) ∧
    ∃ st2, reassembleAndVerify hash now2 st1 = (st2, .ok r1) ∧
      st2.session.map (·.completedAt) = some (some now2) := by
  obtain ⟨s, chunks, hs, hm, hread, hv, hr, hst⟩ :=
    reassemble_ok_inv hash now1 st st1 r1 h1
  subst hst
  constructor
  · rfl
  · have hs1 : ({ st with
        completeFile := some chunks.flatten
        session := some { s with completedAt := some now1 } } : SessionState).session
        = some { s with completedAt := some now1 } := rfl
    have hm1 : getMissingChunks { s with completedAt := some now1 } = [] := by
      rw [getMissingChunks_update]
      exact hm
    have hre := reassemble_ok hash now2
      { st with
        completeFile := some chunks.flatten
        session := some { s with completedAt := some now1 } }
      { s with completedAt := some now1 } chunks hs1 hm1 hread hv
    rw [hr]
    exact ⟨_, hre, rfl⟩

theorem c5_recompletion_witness :
    stC5done.session.map (·.completedAt) = some (some 5) ∧
    ∃ st2, reassembleAndVerify demoHash 9 stC5done = (st2, .ok rC5) ∧
      st2.session.map (·.completedAt) = some (some 9) :=
  c5_recompletion demoHash 5 9 stC5 stC5done rC5 (by decide)

/-- Counterexample to C5 as stated: `completedAt` is set again (with a
different value) by a second successful reassembly; after completion the
session is still mutable (`storeChunk` happily overwrites chunk 0), and
a subsequent `reassembleAndVerify` re-runs verification against that
corrupted state and fails. -/
theorem c5_counterexample :
    ((reassembleAndVerify demoHash 5 stC5).1.session.map (·.completedAt)
      = some (some 5)) ∧
    ((reassembleAndVerify demoHash 9
        (reassembleAndVerify demoHash 5 stC5).1).1.session.map (·.completedAt)
      = some (some 9)) ∧
    (some (some 9) ≠ (some (some 5) : Option (Option Nat))) ∧
    exceptOk (storeChunk demoHash 6 (reassembleAndVerify demoHash 5 stC5).1 0 [9]
      (demoHash [9])).2 = true ∧
    (reassembleAndVerify demoHash 7
        (storeChunk demoHash 6 (reassembleAndVerify demoHash 5 stC5).1 0 [9]
          (demoHash [9])).1).2 =
      .error (.finalHashMismatch (demoHash [1, 2, 3]) (demoHash [9])) := by
  decide

-- ==================== C6 ====================

/-- C6: the derived missing list is exactly the ascending list of
indices in `[0, totalChunks)` absent from `chunksReceived` (empty iff
every index was accepted); the status route returns precisely this list
alongside the raw received array; and `reassembleAndVerify` fails with
`ChunksMissing` carrying exactly this list, making no changes, if and
only if the list is non-empty. -/
theorem c6_missing_chunks (s : UploadSession) :
    (∀ i : Int, i ∈ getMissingChunks s ↔
      0 ≤ i ∧ i < s.totalChunks ∧ i ∉ s.chunksReceived) ∧
    (getMissingChunks s).Pairwise (· < ·) ∧
    (getMissingChunks s = [] ↔
      ∀ i : Int, 0 ≤ i → i < s.totalChunks → i ∈ s.chunksReceived) ∧
    (buildStatusResponse s).chunksMissing = getMissingChunks s ∧
    (buildStatusResponse s).chunksReceived = s.chunksReceived ∧
    (∀ (hash : Bytes → HashStr) (now : Nat) (st : SessionState),
      st.session = some s → getMissingChunks s ≠ [] →
      reassembleAndVerify hash now st =
        (st, .error (.chunksMissing (getMissingChunks s)))) ∧
    (∀ (hash : Bytes → HashStr) (now : Nat) (st st' : SessionState) (m : List Int),
      st.session = some s →
      reassembleAndVerify hash now st = (st', .error (.chunksMissing m)) →
      m = getMissingChunks s ∧ st' = st ∧ m ≠ []) :=
  ⟨mem_getMissingChunks s, getMissingChunks_sorted s, getMissingChunks_eq_nil_iff s,
   rfl, rfl,
   fun hash now st hs hne => reassemble_missing hash now st s hs hne,
   fun hash now st st' m hs h => reassemble_missing_inv hash now st st' m s hs h⟩

theorem c6_missing_chunks_witness :
    getMissingChunks sC6 = [1] ∧
    ((1 : Int) ∈ getMissingChunks sC6 ↔
      0 ≤ (1 : Int) ∧ (1 : Int) < sC6.totalChunks ∧ (1 : Int) ∉ sC6.chunksReceived) ∧
    reassembleAndVerify demoHash 0 stC6 = (stC6, .error (.chunksMissing [1])) := by
  refine ⟨by decide, (c6_missing_chunks sC6).1 1, ?_⟩
  have h := (c6_missing_chunks sC6).2.2.2.2.2.1 demoHash 0 stC6 rfl (by decide)
  rw [show getMissingChunks sC6 = [1] from by decide] at h
  exact h

-- ==================== C7 ====================

/-- C7 (amended): `createUploadSession` itself validates only the
declared final hash (rejecting a malformed one); the non-positivity
checks on `totalSize` / `totalChunks` / `chunkSize` live upstream in the
HTTP start route (`startRequestNumericValid`), not in the service, so
the service accepts any numeric values.  On success the session is
pending: `completedAt` null, `chunksReceived` empty, and `expiresAt`
exactly one hour (3600000 ms) after the creation time. -/
theorem c7_create_validation (now newId : Nat) (p : CreateSessionParams) :
    (isValidHash p.finalHash = false →
      createUploadSession now newId p = .error .invalidHashFormat) ∧
    (isValidHash p.finalHash = true →
      createUploadSession now newId p = .ok (freshSession now newId p)) ∧
    (freshSession now newId p).completedAt = none ∧
    (freshSession now newId p).chunksReceived = [] ∧
    (freshSession now newId p).expiresAt = now + 3600000 ∧
    (∀ totalSize totalChunks chunkSize : Int,
      startRequestNumericValid totalSize totalChunks chunkSize = true ↔
        0 < totalSize ∧ 0 < totalChunks ∧ 0 < chunkSize) := by
  refine ⟨?_, fun hv => createUploadSession_ok now newId p hv, rfl, rfl, rfl, ?_⟩
  · intro hinv
    simp only [createUploadSession, hinv, Bool.not_false]
    rw [if_pos trivial]
  · intro ts tc cs
    unfold startRequestNumericValid
    simp [Bool.and_eq_true, decide_eq_true_eq, and_assoc]

theorem c7_create_validation_witness :
    createUploadSession 0 1 pC1demo = .ok (freshSession 0 1 pC1demo) ∧
    (freshSession 0 1 pC1demo).expiresAt = 3600000 ∧
    createUploadSession 0 1 { pC1demo with finalHash := [104, 105] } =
      .error .invalidHashFormat :=
  ⟨(c7_create_validation 0 1 pC1demo).2.1 (by decide),
   (c7_create_validation 0 1 pC1demo).2.2.2.2.1,
   (c7_create_validation 0 1 { pC1demo with finalHash := [104, 105] }).1 (by decide)⟩

/-- Counterexample to C7 as stated: with a well-formed hash but
non-positive `totalSize`, `totalChunks` and `chunkSize`, the service
function raises no validation error and happily creates the session. -/
theorem c7_counterexample :
    pC7bad.totalSize ≤ 0 ∧ pC7bad.totalChunks ≤ 0 ∧ pC7bad.chunkSize ≤ 0 ∧
    createUploadSession 0 1 pC7bad = .ok (freshSession 0 1 pC7bad) := by
  decide

-- ==================== C8 ====================

/-- C8 is refuted by the code: `storeChunk` updates `chunksReceived` by
a read-modify-write (the `findUnique` read at the top of the call, an
in-memory set insertion, then an `update` overwriting the whole array),
not by an atomic storage-level set-union.  Interleaving two calls for
indices 5 and 7 as read/read/write/write makes the second write clobber
the first: index 5 is lost even though both calls succeeded, while the
serial schedule keeps both.  The last conjunct exhibits the
whole-array write of `storeChunk` itself at the concrete state: the row
it writes contains only its own view of the set. -/
theorem c8_lost_update :
    runTwo [] (some { idx := 5, snapshot := none })
      (some { idx := 7, snapshot := none }) [true, false, true, false] = [7] ∧
    (5 : Int) ∉ runTwo [] (some { idx := 5, snapshot := none })
      (some { idx := 7, snapshot := none }) [true, false, true, false] ∧
    runTwo [] (some { idx := 5, snapshot := none })
      (some { idx := 7, snapshot := none }) [true, true, false, false] = [5, 7] ∧
    (storeChunk demoHash 0
        { session := some sC8, chunkFiles := [], completeFile := none }
        5 [1] (demoHash [1])).1.session =
      some { sC8 with chunksReceived := [5] } := by
  decide

-- ==================== C9 ====================

/-- C9: `storeChunk` never checks the body length against the declared
`chunkSize` or `totalSize` — the hypotheses constrain only existence,
expiry, index range, and the hash; `data` and the declared sizes are
arbitrary.  A matching hash is sufficient for the chunk to be persisted
and its index recorded. -/
theorem c9_no_size_check (hash : Bytes → HashStr) (now : Nat) (st : SessionState)
    (s : UploadSession) (i : Int) (data : Bytes) (eh : HashStr)
    (hs : st.session = some s) (hexp : ¬ s.expiresAt < now)
    (hlo : 0 ≤ i) (hhi : i < s.totalChunks)
    (hmatch : hashesMatch (hash data) eh = true) :
    storeChunk hash now st i data eh =
      ({ st with
          chunkFiles := (i, data) :: st.chunkFiles
          session := some { s with chunksReceived := setAdd s.chunksReceived i } },
       .ok { verified := true
             session := { s with chunksReceived := setAdd s.chunksReceived i }
             chunksReceived := (setAdd s.chunksReceived i).length
             chunksRemaining := s.totalChunks - (setAdd s.chunksReceived i).length }) ∧
    lookupChunk ((i, data) :: st.chunkFiles) i = some data ∧
    i ∈ setAdd s.chunksReceived i :=
  ⟨storeChunk_ok hash now st s i data eh hs hexp hlo hhi hmatch,
   by rw [lookupChunk_cons, if_pos rfl],
   (mem_setAdd i i s.chunksReceived).mpr (Or.inr rfl)⟩

/-- Witness for C9: a 9-byte body against a declared `chunkSize` of 4
(and `totalSize` 10) is accepted, stored and recorded. -/
theorem c9_no_size_check_witness :
    storeChunk demoHash 1000 stDemo 0 [1, 2, 3, 4, 5, 6, 7, 8, 9]
        (demoHash [1, 2, 3, 4, 5, 6, 7, 8, 9]) =
      ({ stDemo with
          chunkFiles := [(0, [1, 2, 3, 4, 5, 6, 7, 8, 9])]
          session := some { sDemo with chunksReceived := [0] } },
       .ok { verified := true
             session := { sDemo with chunksReceived := [0] }
             chunksReceived := 1
             chunksRemaining := 2 }) := by
  have h := (c9_no_size_check demoHash 1000 stDemo sDemo 0 [1, 2, 3, 4, 5, 6, 7, 8, 9]
    (demoHash [1, 2, 3, 4, 5, 6, 7, 8, 9]) rfl (by decide) (by decide) (by decide)
    (hashesMatch_self _)).1
  rw [h]
  decide

-- ==================== C10 ====================

/-- C10: `reassembleAndVerify` performs no expiry check: on a fully
covered session it reassembles, verifies and marks the session
completed even when `expiresAt ≤ now` (the first conjunct applies to an
expired session), its outcome is entirely independent of `expiresAt`,
and there is no `SessionExpired` constructor among its errors — expiry
is enforced only by `storeChunk` and by the cleanup sweep, whose
behaviour on the one-session view the last two conjuncts characterise. -/
theorem c10_no_expiry_check (hash : Bytes → HashStr) (now : Nat)
    (st : SessionState) (s : UploadSession) (chunks : List Bytes)
    (hs : st.session = some s) (hexpired : s.expiresAt ≤ now)
    (hmiss : getMissingChunks s = [])
    (hread : readChunks st.chunkFiles s.totalChunks.toNat = .ok chunks)
    (hmatch : hashesMatch (hash chunks.flatten) s.finalHash = true) :
    reassembleAndVerify hash now st =
      ({ st with
          completeFile := some chunks.flatten
          session := some { s with completedAt := some now } },
       .ok { verified := true, hash := hash chunks.flatten }) ∧
    (∀ (e : Nat) (now' : Nat) (st' : SessionState) (s' : UploadSession),
      st'.session = some s' →
      (reassembleAndVerify hash now'
          { st' with session := some { s' with expiresAt := e } }).2 =
        (reassembleAndVerify hash now' st').2) ∧
    (∀ (now' : Nat) (st' : SessionState) (s' : UploadSession),
      st'.session = some s' → s'.expiresAt < now' → s'.completedAt = none →
      cleanupExpiredSessions now' st' =
        ({ session := none, chunkFiles := [], completeFile := none }, 1)) ∧
    (∀ (now' : Nat) (st' : SessionState) (s' : UploadSession),
      st'.session = some s' → ¬ (s'.expiresAt < now' ∧ s'.completedAt = none) →
      cleanupExpiredSessions now' st' = (st', 0)) := by
  refine ⟨reassemble_ok hash now st s chunks hs hmiss hread hmatch, ?_, ?_, ?_⟩
  · intro e now' st' s' hs'
    have h1 : ({ st' with session := some { s' with expiresAt := e } } :
        SessionState).session = some { s' with expiresAt := e } := rfl
    by_cases hm : getMissingChunks s' = []
    · have hm2 : getMissingChunks { s' with expiresAt := e } = [] := hm
      cases hread' : readChunks st'.chunkFiles s'.totalChunks.toNat with
      | error i =>
        rw [reassemble_readError hash now' st' s' i hs' hm hread']
        rw [reassemble_readError hash now' _ { s' with expiresAt := e } i h1 hm2 hread']
      | ok chunks' =>
        cases hv : hashesMatch (hash chunks'.flatten) s'.finalHash with
        | true =>
          rw [reassemble_ok hash now' st' s' chunks' hs' hm hread' hv]
          rw [reassemble_ok hash now' _ { s' with expiresAt := e } chunks' h1 hm2
            hread' hv]
        | false =>
          rw [reassemble_mismatch hash now' st' s' chunks' hs' hm hread' hv]
          rw [reassemble_mismatch hash now' _ { s' with expiresAt := e } chunks' h1 hm2
            hread' hv]
    · rw [reassemble_missing hash now' st' s' hs' hm]
      rw [reassemble_missing hash now' _ { s' with expiresAt := e } h1 hm]
      rfl
  · intro now' st' s' hs' hexp' hcomp'
    simp only [cleanupExpiredSessions, hs']
    rw [if_pos ⟨hexp', hcomp'⟩]
  · intro now' st' s' hs' hne
    simp only [cleanupExpiredSessions, hs']
    rw [if_neg hne]

/-- Witness for C10: a session whose `expiresAt` (10) lies far in the
past is reassembled at time 50, verified, and marked completed. -/
theorem c10_no_expiry_check_witness :
    reassembleAndVerify demoHash 50 stC10 =
      ({ stC10 with
          completeFile := some [1, 2, 3]
          session := some { sC10 with completedAt := some 50 } },
       .ok { verified := true, hash := demoHash [1, 2, 3] }) := by
  have h := (c10_no_expiry_check demoHash 50 stC10 sC10 [[1, 2, 3]] rfl (by decide)
    (by decide) (by decide) (by decide)).1
  rw [h]
  decide
